import Mathlib

/-!
Verification of `tensorflow_estimator/python/estimator/canned/timeseries/saved_model_utils.py`.

The module is embedded shallowly:
* a numpy array is modelled as its shape together with a flat data buffer
  (`NpArray`); the reshaping operations used by the source
  (`value[..., None]`, `value[None, ...]`, `value[None, None, ...]`) only
  prepend or append size-1 dimensions and never touch the buffer;
* a Python dict is modelled as an association list in insertion order
  (`lookupKV` is first-match lookup, `setKV` is Python dict assignment:
  overwrite in place when the key exists, append otherwise);
* external collaborators that the source only calls
  (`head.state_to_dictionary`, `model_utils.canonicalize_times_or_steps_from_output`,
  `graph.as_graph_element`, `session.run`) are taken as parameters, so every
  theorem quantifies over all of their possible behaviours;
* `raise ValueError` is modelled with `Except String`, carrying a distinct
  message per raise site, abbreviating the source's format strings.
-/

/-- A numpy ndarray: a shape together with the flattened data buffer.
The canonicalization code only rearranges shapes with size-1 axes, which
leaves the flat buffer untouched. -/
structure NpArray where
  shape : List Nat
  data : List Int
deriving DecidableEq, Repr

deriving instance DecidableEq for Except

/-- `value[..., None]`: append a trailing axis of size 1. -/
def NpArray.expandLast (a : NpArray) : NpArray := ⟨a.shape ++ [1], a.data⟩

/-- `value[None, ...]`: prepend an axis of size 1. -/
def NpArray.expandFirst (a : NpArray) : NpArray := ⟨1 :: a.shape, a.data⟩

/-- `value[None, None, ...]`: prepend two axes of size 1. -/
def NpArray.expandFirstTwo (a : NpArray) : NpArray := ⟨1 :: 1 :: a.shape, a.data⟩

/-- Python dict as an association list in insertion order. -/
abbrev Dict (α : Type) := List (String × α)

/-- First-match lookup, `d[k]` / `d.get(k)`. -/
def lookupKV {α : Type} : Dict α → String → Option α
  | [], _ => none
  | kv :: rest, k => if kv.1 = k then some kv.2 else lookupKV rest k

/-- `k in d`. -/
def hasKV {α : Type} (d : Dict α) (k : String) : Bool := (lookupKV d k).isSome

/-- `d[k]` when the key is known to be present; a default is returned
otherwise (the source would raise `KeyError` there, and every use below is
guarded by a presence check exactly as in the source). -/
def getKV {α : Type} [Inhabited α] (d : Dict α) (k : String) : α :=
  (lookupKV d k).getD default

instance : Inhabited NpArray := ⟨⟨[], []⟩⟩

/-- Python dict assignment `d[k] = v`: overwrite in place when the key is
present, append otherwise. -/
def setKV {α : Type} : Dict α → String → α → Dict α
  | [], k, v => [(k, v)]
  | kv :: rest, k, v => if kv.1 = k then (k, v) :: rest else kv :: setKV rest k v

/-- Modelled from the spec: the feature-key constants of `feature_keys.py`,
which is not under `src/`; the spec and the source refer to the `TIMES` and
`VALUES` keys of `TrainEvalFeatures`. The concrete strings follow the
upstream module. -/
def TrainEvalFeatures.TIMES : String := "times"

/-- Modelled from the spec: see `TrainEvalFeatures.TIMES`. -/
def TrainEvalFeatures.VALUES : String := "values"

/-- Modelled from the spec: `FilteringFeatures.TIMES` of `feature_keys.py`
(same value as `TrainEvalFeatures.TIMES` upstream). -/
def FilteringFeatures.TIMES : String := "times"

/-- Modelled from the spec: `FilteringResults.TIMES` of `feature_keys.py`. -/
def FilteringResults.TIMES : String := "times"

/-- Modelled from the spec: `FilteringResults.STATE_TUPLE` of
`feature_keys.py`, the key under which a packed state tuple is stored. -/
def FilteringResults.STATE_TUPLE : String := "model_state"

/-- Modelled from the spec: `PredictionFeatures.TIMES` of `feature_keys.py`. -/
def PredictionFeatures.TIMES : String := "times"

/-- Modelled from the spec: `PredictionResults.TIMES` of `feature_keys.py`. -/
def PredictionResults.TIMES : String := "times"

/-- Modelled from the spec: `SavedModelLabels.PREDICT` of `feature_keys.py`. -/
def SavedModelLabels.PREDICT : String := "predict"

/-- Modelled from the spec: `SavedModelLabels.COLD_START_FILTER`. -/
def SavedModelLabels.COLD_START_FILTER : String := "cold_start_filter"

/-- Modelled from the spec: `SavedModelLabels.FILTER`. -/
def SavedModelLabels.FILTER : String := "filter"

/-- Message of the `raise` at the missing-required-features check. -/
def required_features_error : String :=
  "times and values are required features."

/-- Message of the `raise` at the shape-prefix check. -/
def shapes_mismatch_error : String :=
  "All features must have their shapes prefixed by the shape of the times feature."

/-- Message of the `raise` for a too-high-dimensional VALUES with scalar TIMES. -/
def values_dims_single_error : String :=
  "Got an unexpected number of dimensions for the values feature. Was expecting at most 1 dimension."

/-- Message of the `raise` for a too-high-dimensional VALUES with 1-D TIMES. -/
def values_dims_sequence_error : String :=
  "Got an unexpected number of dimensions for the values feature. Was expecting at most 2 dimensions."

/-- Message of the `raise` for TIMES with more than two dimensions. -/
def times_dims_error : String :=
  "Got an unexpected number of dimensions for times. Was expecting at most two."

/-- Message of the `raise` at the single-batch check. -/
def batch_input_error : String :=
  "Got batch input, was expecting unbatched input."

/-- The trailing `if require_single_batch:` statement of
`_canonicalize_numpy_data` and the final `return features`. -/
def canonBatchCheck (features : Dict NpArray) (require_single_batch : Bool) :
    Except String (Dict NpArray) :=
  if require_single_batch then
    if (getKV features TrainEvalFeatures.TIMES).shape.headD 0 ≠ 1 then
      .error batch_input_error
    else
      .ok features
  else
    .ok features

/-- The `if len(times.shape) == 1: ... elif ...` statement of
`_canonicalize_numpy_data`, continuing into `canonBatchCheck`. `times` is the
array bound before the reshaping statements (the source reads the length of
its shape here, but reads `features[TIMES]` afresh in the `elif`). -/
def canonSequenceStage (times : NpArray) (features : Dict NpArray)
    (require_single_batch : Bool) : Except String (Dict NpArray) :=
  if times.shape.length = 1 then
    if (getKV features TrainEvalFeatures.VALUES).shape.length = 1 then
      canonBatchCheck
        ((setKV features TrainEvalFeatures.VALUES
            (getKV features TrainEvalFeatures.VALUES).expandLast).map
          (fun kv => (kv.1, kv.2.expandFirst)))
        require_single_batch
    else if (getKV features TrainEvalFeatures.VALUES).shape.length > 2 then
      .error values_dims_sequence_error
    else
      canonBatchCheck (features.map (fun kv => (kv.1, kv.2.expandFirst)))
        require_single_batch
  else if (getKV features TrainEvalFeatures.TIMES).shape.length ≠ 2 then
    .error times_dims_error
  else
    canonBatchCheck features require_single_batch

/-- The `if not times.shape:` statement of `_canonicalize_numpy_data`
(single-example canonicalization), continuing into `canonSequenceStage`. -/
def canonScalarStage (times : NpArray) (features : Dict NpArray)
    (require_single_batch : Bool) : Except String (Dict NpArray) :=
  if times.shape = [] then
    if (getKV features TrainEvalFeatures.VALUES).shape = [] then
      canonSequenceStage times
        ((setKV features TrainEvalFeatures.VALUES
            (getKV features TrainEvalFeatures.VALUES).expandLast).map
          (fun kv => (kv.1, kv.2.expandFirstTwo)))
        require_single_batch
    else if (getKV features TrainEvalFeatures.VALUES).shape.length > 1 then
      .error values_dims_single_error
    else
      canonSequenceStage times
        (features.map (fun kv => (kv.1, kv.2.expandFirstTwo)))
        require_single_batch
  else
    canonSequenceStage times features require_single_batch

/-- Shallow embedding of `_canonicalize_numpy_data(data, require_single_batch)`.
`numpy.array(value)` on an array is a copy, the identity on the value, so the
initial dict comprehension is the identity map over the entries. The source's
straight-line statements after the two validation `raise`s are split into the
stage functions above, each an exact translation of one compound statement. -/
def _canonicalize_numpy_data (data : Dict NpArray) (require_single_batch : Bool) :
    Except String (Dict NpArray) :=
  let features := data.map (fun kv => (kv.1, kv.2))
  if hasKV features TrainEvalFeatures.TIMES = false ∨
      hasKV features TrainEvalFeatures.VALUES = false then
    .error required_features_error
  else
    let times := getKV features TrainEvalFeatures.TIMES
    if (features.find? (fun kv =>
        decide (kv.2.shape.take times.shape.length ≠ times.shape))).isSome then
      .error shapes_mismatch_error
    else
      canonScalarStage times features require_single_batch

/-! ### Association-list lemmas -/

theorem lookupKV_map {α β : Type} (f : α → β) (d : Dict α) (k : String) :
    lookupKV (d.map (fun kv => (kv.1, f kv.2))) k = (lookupKV d k).map f := by
  induction d with
  | nil => rfl
  | cons kv rest ih =>
    by_cases h : kv.1 = k <;> simp [lookupKV, h, ih]

theorem lookupKV_setKV_self {α : Type} (d : Dict α) (k : String) (v : α) :
    lookupKV (setKV d k v) k = some v := by
  induction d with
  | nil => simp [setKV, lookupKV]
  | cons kv rest ih =>
    by_cases h : kv.1 = k <;> simp [setKV, lookupKV, h, ih]

theorem lookupKV_setKV_ne {α : Type} (d : Dict α) {k k' : String} (v : α)
    (h : k' ≠ k) : lookupKV (setKV d k v) k' = lookupKV d k' := by
  induction d with
  | nil => simp [setKV, lookupKV, Ne.symm h]
  | cons kv rest ih =>
    by_cases hk : kv.1 = k
    · subst hk
      simp [setKV, lookupKV, Ne.symm h]
    · by_cases hk' : kv.1 = k' <;> simp [setKV, lookupKV, hk, hk', ih, h, Ne.symm h]

theorem mem_setKV {α : Type} {d : Dict α} {k : String} {v : α} {kv' : String × α}
    (h : kv' ∈ setKV d k v) : kv' = (k, v) ∨ kv' ∈ d := by
  induction d with
  | nil => simpa [setKV] using h
  | cons kv rest ih =>
    by_cases hk : kv.1 = k
    · simp only [setKV, hk, if_pos] at h
      rcases List.mem_cons.mp h with h | h
      · exact Or.inl h
      · exact Or.inr (List.mem_cons_of_mem _ h)
    · simp only [setKV, hk, if_neg, not_false_iff] at h
      rcases List.mem_cons.mp h with h | h
      · exact Or.inr (List.mem_cons.mpr (Or.inl h))
      · rcases ih h with h | h
        · exact Or.inl h
        · exact Or.inr (List.mem_cons_of_mem _ h)

theorem map_eta {α : Type} (d : Dict α) : d.map (fun kv => (kv.1, kv.2)) = d := by
  simp

theorem times_ne_values : TrainEvalFeatures.TIMES ≠ TrainEvalFeatures.VALUES := by
  decide

theorem getKV_of_lookup {α : Type} [Inhabited α] {d : Dict α} {k : String} {v : α}
    (h : lookupKV d k = some v) : getKV d k = v := by
  simp [getKV, h]

theorem lookup_times_after_set_map (f : NpArray → NpArray) {data : Dict NpArray}
    {times : NpArray} (v : NpArray)
    (hT : lookupKV data TrainEvalFeatures.TIMES = some times) :
    lookupKV ((setKV data TrainEvalFeatures.VALUES v).map (fun kv => (kv.1, f kv.2)))
      TrainEvalFeatures.TIMES = some (f times) := by
  rw [lookupKV_map, lookupKV_setKV_ne _ _ times_ne_values, hT]
  rfl

theorem lookup_times_after_map (f : NpArray → NpArray) {data : Dict NpArray}
    {times : NpArray}
    (hT : lookupKV data TrainEvalFeatures.TIMES = some times) :
    lookupKV (data.map (fun kv => (kv.1, f kv.2))) TrainEvalFeatures.TIMES
      = some (f times) := by
  rw [lookupKV_map, hT]
  rfl

theorem canonBatchCheck_of_head_one {features : Dict NpArray} (b : Bool)
    (h : (getKV features TrainEvalFeatures.TIMES).shape.headD 0 = 1) :
    canonBatchCheck features b = .ok features := by
  have h2 : (getKV features TrainEvalFeatures.TIMES).shape.head?.getD 0 = 1 := by
    simpa using h
  rw [canonBatchCheck]
  cases b
  · rfl
  · rw [if_pos rfl, if_neg]
    simp [h2]

theorem canonSequenceStage_ok (times : NpArray) (features : Dict NpArray) (b : Bool)
    (hlen : ¬ times.shape.length = 1)
    (h2 : (getKV features TrainEvalFeatures.TIMES).shape.length = 2)
    (h1 : (getKV features TrainEvalFeatures.TIMES).shape.headD 0 = 1) :
    canonSequenceStage times features b = .ok features := by
  rw [canonSequenceStage, if_neg hlen, if_neg (by simp [h2])]
  exact canonBatchCheck_of_head_one b h1

/-- Branch-resolved form of the reshaping stages of `_canonicalize_numpy_data`:
under the validation hypotheses the whole function computes this case split
(`canon_eq_core` below). Every claim about the canonicalization is then read
off this case split. -/
def canonCore (data : Dict NpArray) (times values : NpArray) (b : Bool) :
    Except String (Dict NpArray) :=
  if times.shape = [] then
    if values.shape = [] then
      .ok ((setKV data TrainEvalFeatures.VALUES values.expandLast).map
        (fun kv => (kv.1, kv.2.expandFirstTwo)))
    else if values.shape.length > 1 then
      .error values_dims_single_error
    else
      .ok (data.map (fun kv => (kv.1, kv.2.expandFirstTwo)))
  else if times.shape.length = 1 then
    if values.shape.length = 1 then
      .ok ((setKV data TrainEvalFeatures.VALUES values.expandLast).map
        (fun kv => (kv.1, kv.2.expandFirst)))
    else if values.shape.length > 2 then
      .error values_dims_sequence_error
    else
      .ok (data.map (fun kv => (kv.1, kv.2.expandFirst)))
  else if times.shape.length ≠ 2 then
    .error times_dims_error
  else if b = true ∧ times.shape.headD 0 ≠ 1 then
    .error batch_input_error
  else
    .ok data

theorem canonScalarStage_eq_core (data : Dict NpArray) (b : Bool)
    (times values : NpArray)
    (hT : lookupKV data TrainEvalFeatures.TIMES = some times)
    (hV : lookupKV data TrainEvalFeatures.VALUES = some values) :
    canonScalarStage times data b = canonCore data times values b := by
  have hgV : getKV data TrainEvalFeatures.VALUES = values := getKV_of_lookup hV
  have hgT : getKV data TrainEvalFeatures.TIMES = times := getKV_of_lookup hT
  by_cases h0 : times.shape = []
  · by_cases hv0 : values.shape = []
    · rw [canonScalarStage, if_pos h0, hgV, if_pos hv0, canonCore, if_pos h0,
        if_pos hv0]
      refine canonSequenceStage_ok _ _ _ (by rw [h0]; simp) ?_ ?_
      · rw [getKV_of_lookup (lookup_times_after_set_map NpArray.expandFirstTwo _ hT)]
        simp [NpArray.expandFirstTwo, h0]
      · rw [getKV_of_lookup (lookup_times_after_set_map NpArray.expandFirstTwo _ hT)]
        simp [NpArray.expandFirstTwo]
    · by_cases hv1 : values.shape.length > 1
      · rw [canonScalarStage, if_pos h0, hgV, if_neg hv0, if_pos hv1, canonCore,
          if_pos h0, if_neg hv0, if_pos hv1]
      · rw [canonScalarStage, if_pos h0, hgV, if_neg hv0, if_neg hv1, canonCore,
          if_pos h0, if_neg hv0, if_neg hv1]
        refine canonSequenceStage_ok _ _ _ (by rw [h0]; simp) ?_ ?_
        · rw [getKV_of_lookup (lookup_times_after_map NpArray.expandFirstTwo hT)]
          simp [NpArray.expandFirstTwo, h0]
        · rw [getKV_of_lookup (lookup_times_after_map NpArray.expandFirstTwo hT)]
          simp [NpArray.expandFirstTwo]
  · rw [canonScalarStage, if_neg h0]
    by_cases hl1 : times.shape.length = 1
    · rw [canonSequenceStage, if_pos hl1, hgV, canonCore, if_neg h0, if_pos hl1]
      by_cases hvl1 : values.shape.length = 1
      · rw [if_pos hvl1, if_pos hvl1]
        refine canonBatchCheck_of_head_one b ?_
        rw [getKV_of_lookup (lookup_times_after_set_map NpArray.expandFirst _ hT)]
        simp [NpArray.expandFirst]
      · by_cases hvl2 : values.shape.length > 2
        · rw [if_neg hvl1, if_pos hvl2, if_neg hvl1, if_pos hvl2]
        · rw [if_neg hvl1, if_neg hvl2, if_neg hvl1, if_neg hvl2]
          refine canonBatchCheck_of_head_one b ?_
          rw [getKV_of_lookup (lookup_times_after_map NpArray.expandFirst hT)]
          simp [NpArray.expandFirst]
    · rw [canonSequenceStage, if_neg hl1, hgT, canonCore, if_neg h0, if_neg hl1]
      by_cases hl2 : times.shape.length = 2
      · rw [if_neg (by simp [hl2]), if_neg (by simp [hl2])]
        rw [canonBatchCheck, hgT]
        cases b
        · simp
        · by_cases hh : times.shape.headD 0 = 1 <;> simp [hh]
      · rw [if_pos (by simp [hl2]), if_pos (by simp [hl2])]

theorem canon_eq_core (data : Dict NpArray) (b : Bool) (times values : NpArray)
    (hT : lookupKV data TrainEvalFeatures.TIMES = some times)
    (hV : lookupKV data TrainEvalFeatures.VALUES = some values)
    (hpre : ∀ kv ∈ data, kv.2.shape.take times.shape.length = times.shape) :
    _canonicalize_numpy_data data b = canonCore data times values b := by
  rw [_canonicalize_numpy_data]
  simp only [map_eta]
  rw [if_neg (by simp [hasKV, hT, hV])]
  rw [getKV_of_lookup hT]
  rw [if_neg (by
    simpa using fun (x : String) (y : NpArray) hxy => hpre (x, y) hxy)]
  exact canonScalarStage_eq_core data b times values hT hV

theorem lookupKV_some_mem {α : Type} {d : Dict α} {k : String} {v : α}
    (h : lookupKV d k = some v) : (k, v) ∈ d := by
  induction d with
  | nil => simp [lookupKV] at h
  | cons kv rest ih =>
    by_cases hk : kv.1 = k
    · simp only [lookupKV, hk, if_pos] at h
      subst hk
      rw [Option.some_inj] at h
      exact List.mem_cons.mpr (Or.inl (by rw [← h]))
    · simp only [lookupKV, hk, if_neg, not_false_iff] at h
      exact List.mem_cons.mpr (Or.inr (ih h))

theorem canon_missing_eq (data : Dict NpArray) (b : Bool)
    (h : hasKV data TrainEvalFeatures.TIMES = false ∨
      hasKV data TrainEvalFeatures.VALUES = false) :
    _canonicalize_numpy_data data b = .error required_features_error := by
  rw [_canonicalize_numpy_data]
  simp only [map_eta]
  rw [if_pos h]

theorem canon_prefix_fail_eq (data : Dict NpArray) (b : Bool) (times : NpArray)
    (hT : lookupKV data TrainEvalFeatures.TIMES = some times)
    (hV : hasKV data TrainEvalFeatures.VALUES = true)
    (kv : String × NpArray) (hkv : kv ∈ data)
    (hbad : ¬ kv.2.shape.take times.shape.length = times.shape) :
    _canonicalize_numpy_data data b = .error shapes_mismatch_error := by
  have hV' : ¬ lookupKV data TrainEvalFeatures.VALUES = none := by
    simp only [hasKV, Option.isSome_iff_ne_none] at hV
    exact hV
  rw [_canonicalize_numpy_data]
  simp only [map_eta]
  rw [if_neg (by simp [hasKV, hT, hV'])]
  rw [getKV_of_lookup hT]
  rw [if_pos]
  rw [List.find?_isSome]
  exact ⟨kv, hkv, by simpa using hbad⟩

/-- C6: for every input containing `TIMES` and `VALUES`,
`_canonicalize_numpy_data` raises the shapes-mismatch `ValueError` whenever
any feature's shape (VALUES or any exogenous feature) is not prefixed by the
shape of the TIMES value. -/
theorem canonicalize_rejects_nonprefixed_shapes (data : Dict NpArray) (b : Bool)
    (times : NpArray)
    (hT : lookupKV data TrainEvalFeatures.TIMES = some times)
    (hV : hasKV data TrainEvalFeatures.VALUES = true)
    (kv : String × NpArray) (hkv : kv ∈ data)
    (hbad : ¬ kv.2.shape.take times.shape.length = times.shape) :
    _canonicalize_numpy_data data b = .error shapes_mismatch_error :=
  canon_prefix_fail_eq data b times hT hV kv hkv hbad

/-- Witness for C6 at a concrete input: TIMES of shape (4,) with VALUES of
shape (3,). -/
theorem canonicalize_rejects_nonprefixed_shapes_witness :
    _canonicalize_numpy_data
      [(TrainEvalFeatures.TIMES, NpArray.mk [4] []),
       (TrainEvalFeatures.VALUES, NpArray.mk [3] [])] false
      = .error shapes_mismatch_error :=
  canonicalize_rejects_nonprefixed_shapes _ false (NpArray.mk [4] [])
    (by decide) (by decide)
    (TrainEvalFeatures.VALUES, NpArray.mk [3] []) (by decide) (by decide)

/-- C7: once `TIMES` and `VALUES` are present and the prefix and VALUES-rank
checks pass, `_canonicalize_numpy_data` raises the times-rank `ValueError`
exactly when the TIMES array has more than 2 dimensions; TIMES of rank 0, 1
or 2 is never rejected on dimensionality grounds. -/
theorem canonicalize_times_rank_check (data : Dict NpArray) (b : Bool)
    (times values : NpArray)
    (hT : lookupKV data TrainEvalFeatures.TIMES = some times)
    (hV : lookupKV data TrainEvalFeatures.VALUES = some values)
    (hpre : ∀ kv ∈ data, kv.2.shape.take times.shape.length = times.shape)
    (hv0 : times.shape = [] → values.shape.length ≤ 1)
    (hv1 : times.shape.length = 1 → values.shape.length ≤ 2) :
    _canonicalize_numpy_data data b = .error times_dims_error ↔
      2 < times.shape.length := by
  rw [canon_eq_core data b times values hT hV hpre]
  rcases htimes : times.shape with _ | ⟨a, _ | ⟨c, rest⟩⟩
  · have hval := hv0 htimes
    by_cases hvs : values.shape = []
    · simp [canonCore, htimes, hvs]
    · have hgt : ¬ values.shape.length > 1 := by omega
      simp [canonCore, htimes, hvs, hgt]
  · by_cases hvs : values.shape.length = 1
    · simp [canonCore, htimes, hvs]
    · have hv2 := hv1 (by rw [htimes]; rfl)
      have hgt : ¬ values.shape.length > 2 := by omega
      simp [canonCore, htimes, hvs, hgt]
  · rcases rest with _ | ⟨e, rest2⟩
    · have hne : ¬ batch_input_error = times_dims_error := by decide
      simp only [canonCore, htimes]
      split_ifs <;> first | decide | simp_all [hne]
    · simp [canonCore, htimes]

/-- Witness for C7 at a concrete input: 3-D TIMES is rejected with the
times-rank error. -/
theorem canonicalize_times_rank_check_witness :
    _canonicalize_numpy_data
      [(TrainEvalFeatures.TIMES, NpArray.mk [1, 1, 1] []),
       (TrainEvalFeatures.VALUES, NpArray.mk [1, 1, 1] [])] false
      = .error times_dims_error :=
  (canonicalize_times_rank_check _ false (NpArray.mk [1, 1, 1] [])
    (NpArray.mk [1, 1, 1] []) (by decide) (by decide) (by decide)
    (by decide) (by decide)).mpr (by decide)

/-- C4 as stated is false on the code: with 2-D TIMES of shape (1,1) and 4-D
VALUES of shape (1,1,1,1) — more dimensions than the accepted input shapes
permit — `_canonicalize_numpy_data` raises no error and returns the features
unchanged. -/
theorem canonicalize_values_rank_counterexample :
    _canonicalize_numpy_data
      [(TrainEvalFeatures.TIMES, NpArray.mk [1, 1] [5]),
       (TrainEvalFeatures.VALUES, NpArray.mk [1, 1, 1, 1] [5])] false
      = .ok [(TrainEvalFeatures.TIMES, NpArray.mk [1, 1] [5]),
             (TrainEvalFeatures.VALUES, NpArray.mk [1, 1, 1, 1] [5])] := by
  decide

/-- C4 amended: the VALUES-rank `ValueError` is raised when VALUES has more
than 1 dimension with scalar TIMES and more than 2 dimensions with 1-D TIMES;
with 2-D TIMES the code enforces no VALUES-rank bound (see
the counterexample, where 4-D VALUES passes). -/
theorem canonicalize_values_rank_check (data : Dict NpArray) (b : Bool)
    (times values : NpArray)
    (hT : lookupKV data TrainEvalFeatures.TIMES = some times)
    (hV : lookupKV data TrainEvalFeatures.VALUES = some values)
    (hpre : ∀ kv ∈ data, kv.2.shape.take times.shape.length = times.shape) :
    (times.shape = [] → 1 < values.shape.length →
      _canonicalize_numpy_data data b = .error values_dims_single_error) ∧
    (times.shape.length = 1 → 2 < values.shape.length →
      _canonicalize_numpy_data data b = .error values_dims_sequence_error) := by
  rw [canon_eq_core data b times values hT hV hpre]
  constructor
  · intro h0 hlen
    have hne : ¬ values.shape = [] := by
      intro h
      rw [h] at hlen
      simp at hlen
    simp [canonCore, h0, hne, hlen]
  · intro h1 hlen
    have hne : ¬ times.shape = [] := by
      intro h
      rw [h] at h1
      simp at h1
    have hne1 : ¬ values.shape.length = 1 := by omega
    simp [canonCore, hne, h1, hne1, hlen]

/-- Witness for the amended C4 at a concrete input: scalar TIMES with 2-D
VALUES is rejected with the 1-dimension error. -/
theorem canonicalize_values_rank_check_witness :
    _canonicalize_numpy_data
      [(TrainEvalFeatures.TIMES, NpArray.mk [] [3]),
       (TrainEvalFeatures.VALUES, NpArray.mk [2, 2] [1, 2, 3, 4])] false
      = .error values_dims_single_error :=
  (canonicalize_values_rank_check _ false (NpArray.mk [] [3])
    (NpArray.mk [2, 2] [1, 2, 3, 4]) (by decide) (by decide) (by decide)).1
    (by decide) (by decide)

/-- C1 as stated is false on the code: for batched input (2-D TIMES of shape
(1,2)) with univariate VALUES of shape (1,2), the output VALUES gains no
trailing feature dimension — the validated dict is returned unchanged. -/
theorem canonicalize_shapes_counterexample :
    _canonicalize_numpy_data
      [(TrainEvalFeatures.TIMES, NpArray.mk [1, 2] [0, 1]),
       (TrainEvalFeatures.VALUES, NpArray.mk [1, 2] [3, 4])] false
      = .ok [(TrainEvalFeatures.TIMES, NpArray.mk [1, 2] [0, 1]),
             (TrainEvalFeatures.VALUES, NpArray.mk [1, 2] [3, 4])] ∧
    ¬ (NpArray.mk [1, 2] [3, 4]).shape
        = (NpArray.mk [1, 2] [0, 1]).shape ++ [1] :=
  ⟨by decide, by decide⟩

/-- C1 amended: on success, the output TIMES shape is (1,1) for scalar input
TIMES, (1,L) for 1-D TIMES of length L, and the input TIMES shape for 2-D
TIMES; every output feature's shape is prefixed by the output TIMES shape
(so by the output batch size and series length); a univariate VALUES gains a
trailing size-1 feature dimension exactly in the scalar and 1-D cases, while
2-D (batched) input is returned entirely unchanged, without the trailing
feature dimension the original claim asserts. -/
theorem canonicalize_success_shapes (data : Dict NpArray) (b : Bool)
    (times values : NpArray) (out : Dict NpArray)
    (hT : lookupKV data TrainEvalFeatures.TIMES = some times)
    (hV : lookupKV data TrainEvalFeatures.VALUES = some values)
    (hpre : ∀ kv ∈ data, kv.2.shape.take times.shape.length = times.shape)
    (hok : _canonicalize_numpy_data data b = .ok out) :
    (getKV out TrainEvalFeatures.TIMES).shape =
      (match times.shape with
       | [] => [1, 1]
       | [l] => [1, l]
       | s => s) ∧
    (∀ kv ∈ out, kv.2.shape.take 2 = (getKV out TrainEvalFeatures.TIMES).shape) ∧
    (values.shape = times.shape → times.shape.length ≤ 1 →
      (getKV out TrainEvalFeatures.VALUES).shape
        = (getKV out TrainEvalFeatures.TIMES).shape ++ [1]) ∧
    (times.shape.length = 2 → out = data) := by
  rw [canon_eq_core data b times values hT hV hpre] at hok
  have hmemV : (TrainEvalFeatures.VALUES, values) ∈ data := lookupKV_some_mem hV
  rcases htimes : times.shape with _ | ⟨l, _ | ⟨c, rest⟩⟩
  · -- scalar TIMES
    rw [canonCore, if_pos htimes] at hok
    by_cases hvs : values.shape = []
    · rw [if_pos hvs, Except.ok.injEq] at hok
      subst hok
      have hgT : getKV
          ((setKV data TrainEvalFeatures.VALUES values.expandLast).map
            (fun kv => (kv.1, kv.2.expandFirstTwo))) TrainEvalFeatures.TIMES
          = times.expandFirstTwo :=
        getKV_of_lookup (lookup_times_after_set_map _ _ hT)
      refine ⟨?_, ?_, ?_, ?_⟩
      · rw [hgT]
        simp [NpArray.expandFirstTwo, htimes]
      · intro kv hkv
        obtain ⟨kv0, _, rfl⟩ := List.mem_map.mp hkv
        rw [hgT]
        simp [NpArray.expandFirstTwo, htimes]
      · intro _ _
        rw [hgT]
        have : lookupKV
            ((setKV data TrainEvalFeatures.VALUES values.expandLast).map
              (fun kv => (kv.1, kv.2.expandFirstTwo))) TrainEvalFeatures.VALUES
            = some values.expandLast.expandFirstTwo := by
          rw [lookupKV_map, lookupKV_setKV_self]
          rfl
        rw [getKV_of_lookup this]
        simp [NpArray.expandFirstTwo, NpArray.expandLast, hvs, htimes]
      · intro h2
        simp at h2
    · rw [if_neg hvs] at hok
      by_cases hv1 : values.shape.length > 1
      · rw [if_pos hv1] at hok
        simp at hok
      · rw [if_neg hv1, Except.ok.injEq] at hok
        subst hok
        have hgT : getKV (data.map (fun kv => (kv.1, kv.2.expandFirstTwo)))
            TrainEvalFeatures.TIMES = times.expandFirstTwo :=
          getKV_of_lookup (lookup_times_after_map _ hT)
        refine ⟨?_, ?_, ?_, ?_⟩
        · rw [hgT]
          simp [NpArray.expandFirstTwo, htimes]
        · intro kv hkv
          obtain ⟨kv0, _, rfl⟩ := List.mem_map.mp hkv
          rw [hgT]
          simp [NpArray.expandFirstTwo, htimes]
        · intro hu _
          exact absurd hu hvs
        · intro h2
          simp at h2
  · -- 1-D TIMES
    rw [canonCore, if_neg (by rw [htimes]; simp),
      if_pos (by rw [htimes]; rfl)] at hok
    have hvshape : values.shape.take 1 = [l] := by
      have := hpre _ hmemV
      rw [htimes] at this
      simpa using this
    by_cases hv1 : values.shape.length = 1
    · rw [if_pos hv1, Except.ok.injEq] at hok
      subst hok
      have hvs : values.shape = [l] := by
        rcases hs : values.shape with _ | ⟨x, xs⟩
        · rw [hs] at hv1
          simp at hv1
        · rw [hs] at hv1 hvshape
          simp at hv1
          simp [List.take_succ_cons, hv1] at hvshape
          rw [hvshape, hv1]
      have hgT : getKV
          ((setKV data TrainEvalFeatures.VALUES values.expandLast).map
            (fun kv => (kv.1, kv.2.expandFirst))) TrainEvalFeatures.TIMES
          = times.expandFirst :=
        getKV_of_lookup (lookup_times_after_set_map _ _ hT)
      refine ⟨?_, ?_, ?_, ?_⟩
      · rw [hgT]
        simp [NpArray.expandFirst, htimes]
      · intro kv hkv
        obtain ⟨kv0, hkv0, rfl⟩ := List.mem_map.mp hkv
        rw [hgT]
        simp only [NpArray.expandFirst, htimes]
        have htake : kv0.2.shape.take 1 = [l] := by
          rcases mem_setKV hkv0 with h | h
          · rw [h]
            simp [NpArray.expandLast, hvs]
          · have := hpre _ h
            rw [htimes] at this
            simpa using this
        simp [List.take_succ_cons, htake]
      · intro _ _
        rw [hgT]
        have : lookupKV
            ((setKV data TrainEvalFeatures.VALUES values.expandLast).map
              (fun kv => (kv.1, kv.2.expandFirst))) TrainEvalFeatures.VALUES
            = some values.expandLast.expandFirst := by
          rw [lookupKV_map, lookupKV_setKV_self]
          rfl
        rw [getKV_of_lookup this]
        simp [NpArray.expandFirst, NpArray.expandLast, hvs, htimes]
      · intro h2
        simp at h2
    · rw [if_neg hv1] at hok
      by_cases hv2 : values.shape.length > 2
      · rw [if_pos hv2] at hok
        simp at hok
      · rw [if_neg hv2, Except.ok.injEq] at hok
        subst hok
        have hgT : getKV (data.map (fun kv => (kv.1, kv.2.expandFirst)))
            TrainEvalFeatures.TIMES = times.expandFirst :=
          getKV_of_lookup (lookup_times_after_map _ hT)
        refine ⟨?_, ?_, ?_, ?_⟩
        · rw [hgT]
          simp [NpArray.expandFirst, htimes]
        · intro kv hkv
          obtain ⟨kv0, hkv0, rfl⟩ := List.mem_map.mp hkv
          rw [hgT]
          simp only [NpArray.expandFirst, htimes]
          have htake : kv0.2.shape.take 1 = [l] := by
            have := hpre _ hkv0
            rw [htimes] at this
            simpa using this
          simp [List.take_succ_cons, htake]
        · intro hu _
          rw [hu] at hv1
          simp at hv1
        · intro h2
          simp at h2
  · -- TIMES of rank at least 2
    rw [canonCore, if_neg (by rw [htimes]; simp),
      if_neg (by rw [htimes]; simp)] at hok
    rcases hrest : rest with _ | ⟨e, rest2⟩
    · rw [hrest] at htimes
      rw [if_neg (by rw [htimes]; simp)] at hok
      have hout : out = data := by
        by_cases hb : b = true ∧ times.shape.headD 0 ≠ 1
        · rw [if_pos hb] at hok
          simp at hok
        · rw [if_neg hb, Except.ok.injEq] at hok
          exact hok.symm
      subst hout
      refine ⟨?_, ?_, ?_, ?_⟩
      · rw [getKV_of_lookup hT, htimes]
      · intro kv hkv
        have := hpre _ hkv
        rw [htimes] at this
        rw [getKV_of_lookup hT, htimes]
        simpa using this
      · intro _ hlen
        simp at hlen
      · intro _
        rfl
    · rw [hrest] at htimes
      rw [if_pos (by rw [htimes]; simp)] at hok
      simp at hok

/-- Witness for the amended C1 at a concrete input: a univariate 1-D sequence
of length 2 comes out with TIMES shape (1,2) and VALUES shape (1,2,1). -/
theorem canonicalize_success_shapes_witness :
    (getKV [(TrainEvalFeatures.TIMES, NpArray.mk [1, 2] [0, 1]),
            (TrainEvalFeatures.VALUES, NpArray.mk [1, 2, 1] [5, 6])]
      TrainEvalFeatures.TIMES).shape = [1, 2] ∧
    (getKV [(TrainEvalFeatures.TIMES, NpArray.mk [1, 2] [0, 1]),
            (TrainEvalFeatures.VALUES, NpArray.mk [1, 2, 1] [5, 6])]
      TrainEvalFeatures.VALUES).shape = [1, 2] ++ [1] := by
  have h := canonicalize_success_shapes
    [(TrainEvalFeatures.TIMES, NpArray.mk [2] [0, 1]),
     (TrainEvalFeatures.VALUES, NpArray.mk [2] [5, 6])] false
    (NpArray.mk [2] [0, 1]) (NpArray.mk [2] [5, 6])
    [(TrainEvalFeatures.TIMES, NpArray.mk [1, 2] [0, 1]),
     (TrainEvalFeatures.VALUES, NpArray.mk [1, 2, 1] [5, 6])]
    (by decide) (by decide) (by decide) (by decide)
  have h1 : (getKV [(TrainEvalFeatures.TIMES, NpArray.mk [1, 2] [0, 1]),
      (TrainEvalFeatures.VALUES, NpArray.mk [1, 2, 1] [5, 6])]
      TrainEvalFeatures.TIMES).shape = [1, 2] := h.1
  refine ⟨h1, ?_⟩
  rw [← h1]
  exact h.2.2.1 (by decide) (by decide)

/-- The validation conditions of `_canonicalize_numpy_data`, written as one
flat predicate independent of the function's control flow: the required keys
are present, every feature's shape is prefixed by the TIMES shape, VALUES has
an accepted rank for the given TIMES rank, TIMES has rank at most 2, and
under `require_single_batch` the batch dimension is 1. -/
def valid_input (data : Dict NpArray) (require_single_batch : Bool) : Prop :=
  ∃ times values,
    lookupKV data TrainEvalFeatures.TIMES = some times ∧
    lookupKV data TrainEvalFeatures.VALUES = some values ∧
    (∀ kv ∈ data, kv.2.shape.take times.shape.length = times.shape) ∧
    (match times.shape with
     | [] => values.shape.length ≤ 1
     | [_] => values.shape.length ≤ 2
     | [b0, _] => require_single_batch = true → b0 = 1
     | _ => False)

theorem canonCore_ok_iff (data : Dict NpArray) (times values : NpArray) (b : Bool) :
    (∃ out, canonCore data times values b = .ok out) ↔
      (match times.shape with
       | [] => values.shape.length ≤ 1
       | [_] => values.shape.length ≤ 2
       | [b0, _] => b = true → b0 = 1
       | _ => False) := by
  rcases htimes : times.shape with _ | ⟨a, _ | ⟨c, rest⟩⟩
  · by_cases hvs : values.shape = []
    · simp [canonCore, htimes, hvs]
    · by_cases hv1 : values.shape.length > 1
      · simp only [canonCore, htimes, hvs]
        simp [hv1]
        try omega
      · simp only [canonCore, htimes, hvs]
        simp [hv1]
        try omega
  · by_cases hv1 : values.shape.length = 1
    · simp [canonCore, htimes, hv1]
    · by_cases hv2 : values.shape.length > 2
      · simp only [canonCore, htimes]
        simp [hv1, hv2]
        try omega
      · simp only [canonCore, htimes]
        simp [hv1, hv2]
        try omega
  · rcases rest with _ | ⟨e, rest2⟩
    · by_cases hb1 : b = true <;> by_cases ha : a = 1 <;>
        simp [canonCore, htimes, hb1, ha]
    · simp [canonCore, htimes]

theorem canon_ok_iff_valid (data : Dict NpArray) (b : Bool) :
    (∃ out, _canonicalize_numpy_data data b = .ok out) ↔ valid_input data b := by
  rcases hT : lookupKV data TrainEvalFeatures.TIMES with _ | times
  · constructor
    · rintro ⟨out, hout⟩
      rw [canon_missing_eq data b (Or.inl (by simp [hasKV, hT]))] at hout
      simp at hout
    · rintro ⟨t, v, ht, -⟩
      rw [hT] at ht
      simp at ht
  · rcases hV : lookupKV data TrainEvalFeatures.VALUES with _ | values
    · constructor
      · rintro ⟨out, hout⟩
        rw [canon_missing_eq data b (Or.inr (by simp [hasKV, hV]))] at hout
        simp at hout
      · rintro ⟨t, v, -, hv, -⟩
        rw [hV] at hv
        simp at hv
    · by_cases hpre : ∀ kv ∈ data, kv.2.shape.take times.shape.length = times.shape
      · rw [canon_eq_core data b times values hT hV hpre]
        rw [canonCore_ok_iff]
        constructor
        · intro hcond
          exact ⟨times, values, hT, hV, hpre, hcond⟩
        · rintro ⟨t, v, ht, hv, -, hcond⟩
          rw [hT, Option.some_inj] at ht
          rw [hV, Option.some_inj] at hv
          subst ht
          subst hv
          exact hcond
      · push_neg at hpre
        obtain ⟨kv, hkv, hbad⟩ := hpre
        constructor
        · rintro ⟨out, hout⟩
          rw [canon_prefix_fail_eq data b times hT (by simp [hasKV, hV])
            kv hkv hbad] at hout
          simp at hout
        · rintro ⟨t, v, ht, hv, hpre', -⟩
          rw [hT, Option.some_inj] at ht
          subst ht
          exact absurd (hpre' kv hkv) hbad

/-- C5: `_canonicalize_numpy_data` raises a `ValueError` exactly when
validation fails (the flat predicate `valid_input`), and whenever the TIMES
or VALUES key is absent it raises the required-features error, the first
check performed in the function. -/
theorem canonicalize_valueerror_iff_invalid (data : Dict NpArray) (b : Bool) :
    ((hasKV data TrainEvalFeatures.TIMES = false ∨
        hasKV data TrainEvalFeatures.VALUES = false) →
      _canonicalize_numpy_data data b = .error required_features_error) ∧
    ((∃ e, _canonicalize_numpy_data data b = .error e) ↔ ¬ valid_input data b) := by
  refine ⟨canon_missing_eq data b, ?_⟩
  rw [← canon_ok_iff_valid data b]
  rcases h : _canonicalize_numpy_data data b with e | out <;> simp [h]

/-- Witness for C5: the empty input dict is missing both keys and is rejected
with the required-features error. -/
theorem canonicalize_valueerror_iff_invalid_witness :
    _canonicalize_numpy_data [] true = .error required_features_error :=
  (canonicalize_valueerror_iff_invalid [] true).1 (Or.inl (by decide))

/-- A tensor reference inside a saved-model signature (`TensorInfo`): the
name used to locate the tensor in the graph. -/
structure TensorInfo where
  name : String
deriving DecidableEq, Repr

/-- A saved-model `SignatureDef`: named inputs and outputs. -/
structure SignatureDef where
  inputs : Dict TensorInfo
  outputs : Dict TensorInfo
deriving DecidableEq, Repr

/-- `input_feed_tensors_by_name` of
`_colate_features_to_feeds_and_fetches`: the dict comprehension mapping each
signature input key to `graph.as_graph_element(input_value.name)`. The graph
is the abstract function `graph`, so the theorems hold for every graph. -/
def input_feed_tensors_by_name (signature : SignatureDef)
    (graph : String → String) : Dict String :=
  signature.inputs.map (fun kv => (kv.1, graph kv.2.name))

/-- `output_tensors_by_name` of `_colate_features_to_feeds_and_fetches`. -/
def output_tensors_by_name (signature : SignatureDef)
    (graph : String → String) : Dict String :=
  signature.outputs.map (fun kv => (kv.1, graph kv.2.name))

/-- `input_feed_tensors_by_name[key]`: the graph element a state or feature
key is fed into. The source raises `KeyError` for a key missing from the
signature inputs; here the lookup falls back to a default name, and the
theorems assume presence exactly where the claims do. -/
def feedTensor (signature : SignatureDef) (graph : String → String)
    (k : String) : String :=
  ((lookupKV (input_feed_tensors_by_name signature graph) k).getD "")

/-- The `state_values` bound at the top of
`_colate_features_to_feeds_and_fetches`: the empty dict when `continue_from`
is `None`; the unpacking `state_to_dictionary(continue_from[STATE_TUPLE])`
when the state-tuple key is present; `continue_from` itself otherwise.
`s2d` is `head.state_to_dictionary`, a parameter because `head.py` is not
under `src/`; every theorem below holds for all of its behaviours. -/
def state_values_of {α : Type} (s2d : α → Dict α)
    (continue_from : Option (Dict α)) : Dict α :=
  match continue_from with
  | none => []
  | some cf =>
    match lookupKV cf FilteringResults.STATE_TUPLE with
    | some st => s2d st
    | none => cf

/-- Shallow embedding of `_colate_features_to_feeds_and_fetches(signature,
features, graph, continue_from)`. Feed-dict keys are the resolved graph
elements (`feedTensor`); state values are fed first, then features, with
Python dict assignment (`setKV`) at each step. -/
def _colate_features_to_feeds_and_fetches {α : Type}
    (s2d : α → Dict α) (signature : SignatureDef) (features : Dict α)
    (graph : String → String) (continue_from : Option (Dict α)) :
    Dict String × List (String × α) :=
  let state_values := state_values_of s2d continue_from
  let feed_dict : List (String × α) := state_values.foldl
    (fun d kv => setKV d (feedTensor signature graph kv.1) kv.2) []
  let feed_dict := features.foldl
    (fun d kv => setKV d (feedTensor signature graph kv.1) kv.2) feed_dict
  (output_tensors_by_name signature graph, feed_dict)

/-! ### Feed-dict fold lemmas -/

theorem lookupKV_eq_none_iff {α : Type} {d : Dict α} {k : String} :
    lookupKV d k = none ↔ ∀ kv ∈ d, ¬ kv.1 = k := by
  induction d with
  | nil => simp [lookupKV]
  | cons kv rest ih =>
    by_cases hk : kv.1 = k <;> simp [lookupKV, hk, ih]

theorem lookupKV_foldl_setKV_of_ne {α : Type} (resolve : String → String)
    (l : Dict α) (d : List (String × α)) (t : String)
    (h : ∀ kv ∈ l, ¬ resolve kv.1 = t) :
    lookupKV (l.foldl (fun d kv => setKV d (resolve kv.1) kv.2) d) t
      = lookupKV d t := by
  induction l generalizing d with
  | nil => rfl
  | cons kv rest ih =>
    rw [List.foldl_cons,
      ih _ (fun kv' h' => h kv' (List.mem_cons_of_mem _ h')),
      lookupKV_setKV_ne _ _ (Ne.symm (h kv (List.mem_cons_self _ _)))]

theorem lookupKV_foldl_setKV_self {α : Type} (resolve : String → String)
    (l : Dict α) (d : List (String × α)) (k : String) (v : α)
    (hl : lookupKV l k = some v)
    (hnodup : (l.map Prod.fst).Nodup)
    (hinj : ∀ k1 ∈ l.map Prod.fst, ∀ k2 ∈ l.map Prod.fst,
      resolve k1 = resolve k2 → k1 = k2) :
    lookupKV (l.foldl (fun d kv => setKV d (resolve kv.1) kv.2) d) (resolve k)
      = some v := by
  induction l generalizing d with
  | nil => simp [lookupKV] at hl
  | cons kv rest ih =>
    obtain ⟨k0, v0⟩ := kv
    rw [List.foldl_cons]
    by_cases hk : k0 = k
    · subst hk
      have hv : v0 = v := by simpa [lookupKV] using hl
      subst hv
      have hknotin : ∀ kv' ∈ rest, ¬ kv'.1 = k0 := by
        rw [List.map_cons, List.nodup_cons] at hnodup
        intro kv' hkv' he
        have hmem : kv'.1 ∈ rest.map Prod.fst := List.mem_map_of_mem Prod.fst hkv'
        rw [he] at hmem
        exact hnodup.1 hmem
      rw [lookupKV_foldl_setKV_of_ne]
      · exact lookupKV_setKV_self _ _ _
      · intro kv' hkv' he
        have hk1 : kv'.1 ∈ ((k0, v0) :: rest).map Prod.fst := by
          rw [List.map_cons]
          exact List.mem_cons_of_mem _ (List.mem_map_of_mem Prod.fst hkv')
        have hk2 : k0 ∈ ((k0, v0) :: rest).map Prod.fst := by
          rw [List.map_cons]
          exact List.mem_cons_self _ _
        exact hknotin kv' hkv' (hinj kv'.1 hk1 k0 hk2 he)
    · have hl' : lookupKV rest k = some v := by
        simpa [lookupKV, hk] using hl
      have hnodup' : (rest.map Prod.fst).Nodup := by
        rw [List.map_cons, List.nodup_cons] at hnodup
        exact hnodup.2
      refine ih _ hl' hnodup' ?_
      intro k1 h1 k2 h2 he
      refine hinj k1 ?_ k2 ?_ he
      · rw [List.map_cons]
        exact List.mem_cons_of_mem _ h1
      · rw [List.map_cons]
        exact List.mem_cons_of_mem _ h2

/-- C2 as stated is false on the code: when the same key occurs in the state
values and in the features, the one input tensor cannot be mapped to both
values; the code feeds features last, so the feed dict maps the tensor to
the feature value, not the state value the claim also asserts. Concretely:
signature input "k" names tensor "t", continue_from is the dict mapping "k"
to 1, features maps "k" to 2, and the resulting feed dict maps "t" to 2. -/
theorem colate_counterexample :
    (_colate_features_to_feeds_and_fetches (fun _ : Nat => [])
        (SignatureDef.mk [("k", TensorInfo.mk "t")] []) [("k", 2)]
        id (some [("k", 1)])).2 = [("t", 2)] ∧ ¬ (2 : Nat) = 1 :=
  ⟨by decide, by decide⟩

/-- C2 amended: the fetch dict maps each output key of the signature to the
graph element named by that output; the feed dict maps the resolved input
tensor of each feature key to the feature value, and of each state key that
is not also a feature key to the state value (features are fed after state
values and win on shared keys) — stated for dicts with unique keys (as every
Python dict has) and under the assumption that distinct fed keys resolve to
distinct graph elements. -/
theorem colate_feeds_and_fetches {α : Type}
    (s2d : α → Dict α) (signature : SignatureDef) (features : Dict α)
    (graph : String → String) (continue_from : Option (Dict α))
    (hfnodup : (features.map Prod.fst).Nodup)
    (hsnodup : ((state_values_of s2d continue_from).map Prod.fst).Nodup)
    (hinj : ∀ k1 ∈ (state_values_of s2d continue_from).map Prod.fst
        ++ features.map Prod.fst,
      ∀ k2 ∈ (state_values_of s2d continue_from).map Prod.fst
        ++ features.map Prod.fst,
      feedTensor signature graph k1 = feedTensor signature graph k2 → k1 = k2) :
    (_colate_features_to_feeds_and_fetches s2d signature features graph
        continue_from).1
      = signature.outputs.map (fun kv => (kv.1, graph kv.2.name)) ∧
    (∀ k v, lookupKV features k = some v →
      lookupKV (_colate_features_to_feeds_and_fetches s2d signature features
          graph continue_from).2 (feedTensor signature graph k) = some v) ∧
    (∀ k v, lookupKV (state_values_of s2d continue_from) k = some v →
      lookupKV features k = none →
      lookupKV (_colate_features_to_feeds_and_fetches s2d signature features
          graph continue_from).2 (feedTensor signature graph k) = some v) := by
  refine ⟨rfl, ?_, ?_⟩
  · intro k v hkv
    exact lookupKV_foldl_setKV_self _ features _ k v hkv hfnodup
      (fun k1 h1 k2 h2 he =>
        hinj k1 (List.mem_append_right _ h1) k2 (List.mem_append_right _ h2) he)
  · intro k v hsv hfnone
    have hkmem : k ∈ (state_values_of s2d continue_from).map Prod.fst :=
      List.mem_map_of_mem Prod.fst (lookupKV_some_mem hsv)
    show lookupKV (features.foldl _ _) _ = some v
    rw [lookupKV_foldl_setKV_of_ne]
    · exact lookupKV_foldl_setKV_self _ _ _ k v hsv hsnodup
        (fun k1 h1 k2 h2 he =>
          hinj k1 (List.mem_append_left _ h1) k2 (List.mem_append_left _ h2) he)
    · intro kv hkv he
      have := hinj kv.1
        (List.mem_append_right _ (List.mem_map_of_mem Prod.fst hkv))
        k (List.mem_append_left _ hkmem) he
      rw [lookupKV_eq_none_iff] at hfnone
      exact hfnone kv hkv this

/-- Witness for the amended C2 at a concrete instance: state key "a" feeds
tensor "ta" with 5, feature key "b" feeds tensor "tb" with 7, and the fetch
dict resolves the output "o" to "to". -/
theorem colate_feeds_and_fetches_witness :
    (_colate_features_to_feeds_and_fetches (fun _ : Nat => [])
        (SignatureDef.mk [("a", TensorInfo.mk "ta"), ("b", TensorInfo.mk "tb")]
          [("o", TensorInfo.mk "to")]) [("b", 7)] id (some [("a", 5)])).1
      = [("o", "to")] ∧
    lookupKV (_colate_features_to_feeds_and_fetches (fun _ : Nat => [])
        (SignatureDef.mk [("a", TensorInfo.mk "ta"), ("b", TensorInfo.mk "tb")]
          [("o", TensorInfo.mk "to")]) [("b", 7)] id (some [("a", 5)])).2
      "tb" = some 7 ∧
    lookupKV (_colate_features_to_feeds_and_fetches (fun _ : Nat => [])
        (SignatureDef.mk [("a", TensorInfo.mk "ta"), ("b", TensorInfo.mk "tb")]
          [("o", TensorInfo.mk "to")]) [("b", 7)] id (some [("a", 5)])).2
      "ta" = some 5 := by
  have h := colate_feeds_and_fetches (fun _ : Nat => [])
    (SignatureDef.mk [("a", TensorInfo.mk "ta"), ("b", TensorInfo.mk "tb")]
      [("o", TensorInfo.mk "to")]) [("b", 7)] id (some [("a", 5)])
    (by decide) (by decide) (by decide)
  exact ⟨h.1, h.2.1 "b" 7 (by decide), h.2.2 "a" 5 (by decide) (by decide)⟩

/-- C9: whenever a key occurs both in the state values derived from
`continue_from` and in the features, the feed dict maps the resolved input
tensor to the feature value: features are fed after state values, so they
take precedence on key collisions. (Stated for feature dicts with unique
keys, as every Python dict has, and input keys resolving to distinct
tensors.) -/
theorem colate_features_override_state {α : Type}
    (s2d : α → Dict α) (signature : SignatureDef) (features : Dict α)
    (graph : String → String) (continue_from : Option (Dict α))
    (k : String) (sv fv : α)
    (_hsv : lookupKV (state_values_of s2d continue_from) k = some sv)
    (hfv : lookupKV features k = some fv)
    (hfnodup : (features.map Prod.fst).Nodup)
    (hinj : ∀ k1 ∈ features.map Prod.fst, ∀ k2 ∈ features.map Prod.fst,
      feedTensor signature graph k1 = feedTensor signature graph k2 → k1 = k2) :
    lookupKV (_colate_features_to_feeds_and_fetches s2d signature features
        graph continue_from).2 (feedTensor signature graph k) = some fv :=
  lookupKV_foldl_setKV_self _ features _ k fv hfv hfnodup hinj

/-- Witness for C9: key "k" occurs in both state (value 1) and features
(value 2); the feed dict maps the resolved tensor "t" to the feature value 2. -/
theorem colate_features_override_state_witness :
    lookupKV (_colate_features_to_feeds_and_fetches (fun _ : Nat => [])
        (SignatureDef.mk [("k", TensorInfo.mk "t")] []) [("k", 2)]
        id (some [("k", 1)])).2 "t" = some 2 :=
  colate_features_override_state (fun _ : Nat => [])
    (SignatureDef.mk [("k", TensorInfo.mk "t")] []) [("k", 2)] id
    (some [("k", 1)]) "k" 1 2 (by decide) (by decide) (by decide) (by decide)

/-- The `MetaGraphDef` protocol buffer as used by the endpoints: its
`signature_def` map. A missing label defaults to the empty signature (the
source would raise `KeyError` there; the theorems do not depend on the
signature contents). -/
structure MetaGraphDef where
  signature_def : Dict SignatureDef
deriving DecidableEq, Repr

/-- `signatures.signature_def[label]`. -/
def getSignature (signatures : MetaGraphDef) (label : String) : SignatureDef :=
  (lookupKV signatures.signature_def label).getD ⟨[], []⟩

/-- Shallow embedding of `cold_start_filter(signatures, session, features)`.
The session is split into `graph` (`session.graph.as_graph_element`), an
abstract session state `st` and the state-passing `run` (`session.run`): a
theorem quantifying over every state type and every `run` pins down exactly
how often and with which feeds and fetches `session.run` is invoked. On the
`ValueError` path of `_canonicalize_numpy_data` the exception propagates
before any `run` call, so the state is returned unchanged. -/
def cold_start_filter {σ : Type} (s2d : NpArray → Dict NpArray)
    (signatures : MetaGraphDef) (graph : String → String)
    (run : σ → Dict String → List (String × NpArray) → σ × Dict NpArray)
    (st : σ) (features : Dict NpArray) :
    σ × Except String (Dict NpArray) :=
  let filter_signature :=
    getSignature signatures SavedModelLabels.COLD_START_FILTER
  match _canonicalize_numpy_data features false with
  | .error e => (st, .error e)
  | .ok features2 =>
    let p := _colate_features_to_feeds_and_fetches s2d filter_signature
      features2 graph none
    let r := run st p.1 p.2
    (r.1, .ok (setKV r.2 FilteringResults.TIMES
      (getKV features2 FilteringFeatures.TIMES)))

/-- Shallow embedding of `filter_continuation(continue_from, signatures,
session, features)`: as `cold_start_filter` but with the FILTER signature
and `continue_from` handed to the feed construction. -/
def filter_continuation {σ : Type} (s2d : NpArray → Dict NpArray)
    (continue_from : Dict NpArray) (signatures : MetaGraphDef)
    (graph : String → String)
    (run : σ → Dict String → List (String × NpArray) → σ × Dict NpArray)
    (st : σ) (features : Dict NpArray) :
    σ × Except String (Dict NpArray) :=
  let filter_signature := getSignature signatures SavedModelLabels.FILTER
  match _canonicalize_numpy_data features false with
  | .error e => (st, .error e)
  | .ok features2 =>
    let p := _colate_features_to_feeds_and_fetches s2d filter_signature
      features2 graph (some continue_from)
    let r := run st p.1 p.2
    (r.1, .ok (setKV r.2 FilteringResults.TIMES
      (getKV features2 FilteringFeatures.TIMES)))

/-- Shallow embedding of `predict_continuation(continue_from, signatures,
session, steps, times, exogenous_features)`. `canon_ts` is
`model_utils.canonicalize_times_or_steps_from_output` (whose module is not
under `src/`), a parameter that may raise `ValueError` and otherwise yields
the prediction-times array; `exogenous_features = None` corresponds to the
empty dict. `features` is the dict literal holding the prediction times,
updated with the exogenous features. -/
def predict_continuation {σ : Type} (s2d : NpArray → Dict NpArray)
    (canon_ts : Option NpArray → Option NpArray → Dict NpArray →
      Except String NpArray)
    (continue_from : Dict NpArray) (signatures : MetaGraphDef)
    (graph : String → String)
    (run : σ → Dict String → List (String × NpArray) → σ × Dict NpArray)
    (st : σ) (steps times : Option NpArray)
    (exogenous_features : Dict NpArray) :
    σ × Except String (Dict NpArray) :=
  match canon_ts times steps continue_from with
  | .error e => (st, .error e)
  | .ok predict_times =>
    let features := exogenous_features.foldl (fun d kv => setKV d kv.1 kv.2)
      [(PredictionFeatures.TIMES, predict_times)]
    let predict_signature := getSignature signatures SavedModelLabels.PREDICT
    let p := _colate_features_to_feeds_and_fetches s2d predict_signature
      features graph (some continue_from)
    let r := run st p.1 p.2
    (r.1, .ok (setKV r.2 PredictionResults.TIMES
      (getKV features PredictionFeatures.TIMES)))

theorem lookupKV_foldl_setKV_id_of_ne {α : Type}
    (l : Dict α) (d : List (String × α)) (t : String)
    (h : ∀ kv ∈ l, ¬ kv.1 = t) :
    lookupKV (l.foldl (fun d kv => setKV d kv.1 kv.2) d) t = lookupKV d t := by
  induction l generalizing d with
  | nil => rfl
  | cons kv rest ih =>
    rw [List.foldl_cons,
      ih _ (fun kv' h' => h kv' (List.mem_cons_of_mem _ h')),
      lookupKV_setKV_ne _ _ (Ne.symm (h kv (List.mem_cons_self _ _)))]

/-- C3: every successful call of the three endpoints returns exactly the
dict produced by `session.run` on the signature's fetches, augmented with
one times key — the filtering endpoints set `FilteringResults.TIMES` to the
canonicalized TIMES feature and `predict_continuation` sets
`PredictionResults.TIMES` to the canonicalized prediction times — and every
other key of the `session.run` output is unaltered. (For
`predict_continuation` this is stated for exogenous features that do not
reuse the prediction-times key; the source would overwrite the entry it
later reads back.) -/
theorem endpoints_augment_run_output {σ : Type} (s2d : NpArray → Dict NpArray)
    (signatures : MetaGraphDef) (graph : String → String)
    (run : σ → Dict String → List (String × NpArray) → σ × Dict NpArray)
    (st : σ) :
    (∀ features features2 out,
      _canonicalize_numpy_data features false = .ok features2 →
      (cold_start_filter s2d signatures graph run st features).2 = .ok out →
      lookupKV out FilteringResults.TIMES
        = some (getKV features2 FilteringFeatures.TIMES) ∧
      ∀ k, ¬ k = FilteringResults.TIMES →
        lookupKV out k = lookupKV (run st
          (_colate_features_to_feeds_and_fetches s2d
            (getSignature signatures SavedModelLabels.COLD_START_FILTER)
            features2 graph none).1
          (_colate_features_to_feeds_and_fetches s2d
            (getSignature signatures SavedModelLabels.COLD_START_FILTER)
            features2 graph none).2).2 k) ∧
    (∀ continue_from features features2 out,
      _canonicalize_numpy_data features false = .ok features2 →
      (filter_continuation s2d continue_from signatures graph run st
        features).2 = .ok out →
      lookupKV out FilteringResults.TIMES
        = some (getKV features2 FilteringFeatures.TIMES) ∧
      ∀ k, ¬ k = FilteringResults.TIMES →
        lookupKV out k = lookupKV (run st
          (_colate_features_to_feeds_and_fetches s2d
            (getSignature signatures SavedModelLabels.FILTER)
            features2 graph (some continue_from)).1
          (_colate_features_to_feeds_and_fetches s2d
            (getSignature signatures SavedModelLabels.FILTER)
            features2 graph (some continue_from)).2).2 k) ∧
    (∀ canon_ts continue_from steps times exogenous_features predict_times out,
      canon_ts times steps continue_from = .ok predict_times →
      lookupKV exogenous_features PredictionFeatures.TIMES = none →
      (predict_continuation s2d canon_ts continue_from signatures graph run st
        steps times exogenous_features).2 = .ok out →
      lookupKV out PredictionResults.TIMES = some predict_times ∧
      ∀ k, ¬ k = PredictionResults.TIMES →
        lookupKV out k = lookupKV (run st
          (_colate_features_to_feeds_and_fetches s2d
            (getSignature signatures SavedModelLabels.PREDICT)
            (exogenous_features.foldl (fun d kv => setKV d kv.1 kv.2)
              [(PredictionFeatures.TIMES, predict_times)]) graph
            (some continue_from)).1
          (_colate_features_to_feeds_and_fetches s2d
            (getSignature signatures SavedModelLabels.PREDICT)
            (exogenous_features.foldl (fun d kv => setKV d kv.1 kv.2)
              [(PredictionFeatures.TIMES, predict_times)]) graph
            (some continue_from)).2).2 k) := by
  refine ⟨?_, ?_, ?_⟩
  · intro features features2 out hcanon hok
    simp only [cold_start_filter, hcanon] at hok
    rw [Except.ok.injEq] at hok
    subst hok
    refine ⟨lookupKV_setKV_self _ _ _, ?_⟩
    intro k hk
    exact lookupKV_setKV_ne _ _ hk
  · intro continue_from features features2 out hcanon hok
    simp only [filter_continuation, hcanon] at hok
    rw [Except.ok.injEq] at hok
    subst hok
    refine ⟨lookupKV_setKV_self _ _ _, ?_⟩
    intro k hk
    exact lookupKV_setKV_ne _ _ hk
  · intro canon_ts continue_from steps times exogenous_features predict_times
      out hcts hexo hok
    simp only [predict_continuation, hcts] at hok
    rw [Except.ok.injEq] at hok
    subst hok
    have hfeat : getKV (exogenous_features.foldl (fun d kv => setKV d kv.1 kv.2)
        [(PredictionFeatures.TIMES, predict_times)]) PredictionFeatures.TIMES
        = predict_times := by
      rw [lookupKV_eq_none_iff] at hexo
      rw [getKV, lookupKV_foldl_setKV_id_of_ne _ _ _ hexo]
      simp [lookupKV]
    rw [hfeat]
    refine ⟨lookupKV_setKV_self _ _ _, ?_⟩
    intro k hk
    exact lookupKV_setKV_ne _ _ hk

/-- Witness for C3 at a concrete `cold_start_filter` call: the run output
has one key "m"; the returned dict keeps "m" unaltered and adds the
canonicalized TIMES under `FilteringResults.TIMES`. -/
theorem endpoints_augment_run_output_witness :
    lookupKV [("m", NpArray.mk [1] [9]), ("times", NpArray.mk [1, 2] [0, 1])]
      FilteringResults.TIMES = some (NpArray.mk [1, 2] [0, 1]) ∧
    lookupKV [("m", NpArray.mk [1] [9]), ("times", NpArray.mk [1, 2] [0, 1])]
      "m" = some (NpArray.mk [1] [9]) := by
  have h := (endpoints_augment_run_output (fun _ => [])
      (MetaGraphDef.mk [("cold_start_filter",
        SignatureDef.mk
          [("times", TensorInfo.mk "t_in"), ("values", TensorInfo.mk "v_in")]
          [("m", TensorInfo.mk "m_out")])])
      id (fun (n : Nat) _ _ => (n + 1, [("m", NpArray.mk [1] [9])])) 0).1
    [("times", NpArray.mk [2] [0, 1]), ("values", NpArray.mk [2] [5, 6])]
    [("times", NpArray.mk [1, 2] [0, 1]),
     ("values", NpArray.mk [1, 2, 1] [5, 6])]
    [("m", NpArray.mk [1] [9]), ("times", NpArray.mk [1, 2] [0, 1])]
    (by decide) (by decide)
  exact ⟨h.1, (h.2 "m" (by decide)).trans (by decide)⟩

/-- C8: per invocation, each endpoint performs exactly one `session.run`
call when it returns successfully — the final session state is `run` applied
once to the initial state — and zero calls when it raises, the state coming
back unchanged. The theorem quantifies over every state type `σ` and every
`run`, so instantiating `σ` with a call counter makes the call count
observable; the sequential embedding models the synchronous
return-after-completion behaviour. -/
theorem endpoints_single_run_call {σ : Type} (s2d : NpArray → Dict NpArray)
    (signatures : MetaGraphDef) (graph : String → String)
    (run : σ → Dict String → List (String × NpArray) → σ × Dict NpArray)
    (st : σ) :
    (∀ features,
      (∀ out, (cold_start_filter s2d signatures graph run st features).2
          = .ok out →
        ∃ fetches feed, (cold_start_filter s2d signatures graph run st
          features).1 = (run st fetches feed).1) ∧
      (∀ e, (cold_start_filter s2d signatures graph run st features).2
          = .error e →
        (cold_start_filter s2d signatures graph run st features).1 = st)) ∧
    (∀ continue_from features,
      (∀ out, (filter_continuation s2d continue_from signatures graph run st
          features).2 = .ok out →
        ∃ fetches feed, (filter_continuation s2d continue_from signatures
          graph run st features).1 = (run st fetches feed).1) ∧
      (∀ e, (filter_continuation s2d continue_from signatures graph run st
          features).2 = .error e →
        (filter_continuation s2d continue_from signatures graph run st
          features).1 = st)) ∧
    (∀ canon_ts continue_from steps times exogenous_features,
      (∀ out, (predict_continuation s2d canon_ts continue_from signatures
          graph run st steps times exogenous_features).2 = .ok out →
        ∃ fetches feed, (predict_continuation s2d canon_ts continue_from
          signatures graph run st steps times exogenous_features).1
          = (run st fetches feed).1) ∧
      (∀ e, (predict_continuation s2d canon_ts continue_from signatures
          graph run st steps times exogenous_features).2 = .error e →
        (predict_continuation s2d canon_ts continue_from signatures graph
          run st steps times exogenous_features).1 = st)) := by
  refine ⟨?_, ?_, ?_⟩
  · intro features
    rcases h : _canonicalize_numpy_data features false with e0 | f2
    · refine ⟨?_, ?_⟩
      · intro out hout
        simp [cold_start_filter, h] at hout
      · intro e he
        simp [cold_start_filter, h]
    · refine ⟨?_, ?_⟩
      · intro out hout
        refine ⟨(_colate_features_to_feeds_and_fetches s2d
            (getSignature signatures SavedModelLabels.COLD_START_FILTER)
            f2 graph none).1,
          (_colate_features_to_feeds_and_fetches s2d
            (getSignature signatures SavedModelLabels.COLD_START_FILTER)
            f2 graph none).2, ?_⟩
        simp [cold_start_filter, h]
      · intro e he
        simp [cold_start_filter, h] at he
  · intro continue_from features
    rcases h : _canonicalize_numpy_data features false with e0 | f2
    · refine ⟨?_, ?_⟩
      · intro out hout
        simp [filter_continuation, h] at hout
      · intro e he
        simp [filter_continuation, h]
    · refine ⟨?_, ?_⟩
      · intro out hout
        refine ⟨(_colate_features_to_feeds_and_fetches s2d
            (getSignature signatures SavedModelLabels.FILTER)
            f2 graph (some continue_from)).1,
          (_colate_features_to_feeds_and_fetches s2d
            (getSignature signatures SavedModelLabels.FILTER)
            f2 graph (some continue_from)).2, ?_⟩
        simp [filter_continuation, h]
      · intro e he
        simp [filter_continuation, h] at he
  · intro canon_ts continue_from steps times exogenous_features
    rcases h : canon_ts times steps continue_from with e0 | pt
    · refine ⟨?_, ?_⟩
      · intro out hout
        simp [predict_continuation, h] at hout
      · intro e he
        simp [predict_continuation, h]
    · refine ⟨?_, ?_⟩
      · intro out hout
        refine ⟨(_colate_features_to_feeds_and_fetches s2d
            (getSignature signatures SavedModelLabels.PREDICT)
            (exogenous_features.foldl (fun d kv => setKV d kv.1 kv.2)
              [(PredictionFeatures.TIMES, pt)]) graph
            (some continue_from)).1,
          (_colate_features_to_feeds_and_fetches s2d
            (getSignature signatures SavedModelLabels.PREDICT)
            (exogenous_features.foldl (fun d kv => setKV d kv.1 kv.2)
              [(PredictionFeatures.TIMES, pt)]) graph
            (some continue_from)).2, ?_⟩
        simp [predict_continuation, h]
      · intro e he
        simp [predict_continuation, h] at he

/-- Witness for C8 with a counting `run` (state `Nat`, incremented per
call): an input missing the required keys raises and leaves the counter at
0; a valid scalar input returns with the counter at 1 — exactly one call. -/
theorem endpoints_single_run_call_witness :
    (cold_start_filter (fun _ => []) (MetaGraphDef.mk []) id
      (fun (n : Nat) _ _ => (n + 1, [])) 0 []).1 = 0 ∧
    (cold_start_filter (fun _ => []) (MetaGraphDef.mk []) id
      (fun (n : Nat) _ _ => (n + 1, [])) 0
      [("times", NpArray.mk [] [7]), ("values", NpArray.mk [] [8])]).1 = 1 := by
  have h := endpoints_single_run_call (fun _ => []) (MetaGraphDef.mk []) id
    (fun (n : Nat) _ _ => (n + 1, [])) 0
  refine ⟨(h.1 []).2 required_features_error (by decide), ?_⟩
  obtain ⟨fetches, feed, hf⟩ := (h.1 [("times", NpArray.mk [] [7]),
      ("values", NpArray.mk [] [8])]).1
    [("times", NpArray.mk [1, 1] [7])] (by decide)
  rw [hf]

/-- The allocation store for the aliasing-level model of
`_canonicalize_numpy_data`: the array objects the process holds, indexed by
allocation order. The function below only ever appends to the store, which
is what makes "the caller's input arrays are unchanged" expressible. -/
abbrev Store := List NpArray

/-- Allocate a new array object; returns the store and the new reference. -/
def alloc (s : Store) (a : NpArray) : Store × Nat := (s ++ [a], s.length)

/-- Dereference. (A default for dangling references, which never arise.) -/
def readA (s : Store) (r : Nat) : NpArray := s.getD r ⟨[], []⟩

/-- A dict comprehension `{key: g(value) for key, value in d.items()}` at
the aliasing level: each entry allocates a new array object computed from
the entry's current array. `numpy.array(value)` is the copy `g = id`; the
reshaping comprehensions use the axis-prepending `g`s (each indexing
expression creates a new array object). -/
def allocMap (g : NpArray → NpArray) (s : Store) (d : List (String × Nat)) :
    Store × List (String × Nat) :=
  d.foldl (fun acc kv =>
      let a := alloc acc.1 (g (readA acc.1 kv.2))
      (a.1, acc.2 ++ [(kv.1, a.2)]))
    (s, [])

/-- Aliasing-level counterpart of `canonBatchCheck`. -/
def canonBatchCheckAlloc (s : Store) (features : List (String × Nat))
    (require_single_batch : Bool) :
    Store × Except String (List (String × Nat)) :=
  if require_single_batch then
    if (readA s (getKV features TrainEvalFeatures.TIMES)).shape.headD 0 ≠ 1 then
      (s, .error batch_input_error)
    else
      (s, .ok features)
  else
    (s, .ok features)

/-- Aliasing-level counterpart of `canonSequenceStage`: the
`features[VALUES][..., None]` view is an allocation, the dict update is
`setKV` on the reference dict, and the `[None, ...]` comprehension is an
`allocMap`. -/
def canonSequenceStageAlloc (times : NpArray) (s : Store)
    (features : List (String × Nat)) (require_single_batch : Bool) :
    Store × Except String (List (String × Nat)) :=
  if times.shape.length = 1 then
    if (readA s (getKV features TrainEvalFeatures.VALUES)).shape.length = 1 then
      let a := alloc s
        (readA s (getKV features TrainEvalFeatures.VALUES)).expandLast
      let features := setKV features TrainEvalFeatures.VALUES a.2
      let sf := allocMap NpArray.expandFirst a.1 features
      canonBatchCheckAlloc sf.1 sf.2 require_single_batch
    else if (readA s (getKV features TrainEvalFeatures.VALUES)).shape.length > 2
        then
      (s, .error values_dims_sequence_error)
    else
      let sf := allocMap NpArray.expandFirst s features
      canonBatchCheckAlloc sf.1 sf.2 require_single_batch
  else if (readA s (getKV features TrainEvalFeatures.TIMES)).shape.length ≠ 2
      then
    (s, .error times_dims_error)
  else
    canonBatchCheckAlloc s features require_single_batch

/-- Aliasing-level counterpart of `canonScalarStage`. -/
def canonScalarStageAlloc (times : NpArray) (s : Store)
    (features : List (String × Nat)) (require_single_batch : Bool) :
    Store × Except String (List (String × Nat)) :=
  if times.shape = [] then
    if (readA s (getKV features TrainEvalFeatures.VALUES)).shape = [] then
      let a := alloc s
        (readA s (getKV features TrainEvalFeatures.VALUES)).expandLast
      let features := setKV features TrainEvalFeatures.VALUES a.2
      let sf := allocMap NpArray.expandFirstTwo a.1 features
      canonSequenceStageAlloc times sf.1 sf.2 require_single_batch
    else if (readA s (getKV features TrainEvalFeatures.VALUES)).shape.length > 1
        then
      (s, .error values_dims_single_error)
    else
      let sf := allocMap NpArray.expandFirstTwo s features
      canonSequenceStageAlloc times sf.1 sf.2 require_single_batch
  else
    canonSequenceStageAlloc times s features require_single_batch

/-- Aliasing-level embedding of `_canonicalize_numpy_data`: the same control
flow as `_canonicalize_numpy_data`, with every numpy-array creation made an
explicit allocation. The input `data` maps keys to references into the
caller's store `s`; the result is the final store and, on success, the
output dict of references. Nothing in the body writes to an existing store
cell or to `data` — the claim proved below. -/
def _canonicalize_numpy_data_alloc (s : Store) (data : List (String × Nat))
    (require_single_batch : Bool) :
    Store × Except String (List (String × Nat)) :=
  let sf := allocMap id s data
  let s1 := sf.1
  let features := sf.2
  if hasKV features TrainEvalFeatures.TIMES = false ∨
      hasKV features TrainEvalFeatures.VALUES = false then
    (s1, .error required_features_error)
  else
    let times := readA s1 (getKV features TrainEvalFeatures.TIMES)
    if (features.find? (fun kv =>
        decide ((readA s1 kv.2).shape.take times.shape.length
          ≠ times.shape))).isSome then
      (s1, .error shapes_mismatch_error)
    else
      canonScalarStageAlloc times s1 features require_single_batch

theorem allocMap_fold_invariant (g : NpArray → NpArray)
    (d : List (String × Nat)) :
    ∀ (s0 : Store) (init : List (String × Nat)),
      s0 <+: (d.foldl (fun acc kv =>
          let a := alloc acc.1 (g (readA acc.1 kv.2))
          (a.1, acc.2 ++ [(kv.1, a.2)])) (s0, init)).1 ∧
      ∀ kv' ∈ (d.foldl (fun acc kv =>
          let a := alloc acc.1 (g (readA acc.1 kv.2))
          (a.1, acc.2 ++ [(kv.1, a.2)])) (s0, init)).2,
        kv' ∈ init ∨ s0.length ≤ kv'.2 := by
  induction d with
  | nil => exact fun s0 init => ⟨List.prefix_refl _, fun kv' h => Or.inl h⟩
  | cons kv rest ih =>
    intro s0 init
    have hstep : (let a := alloc (s0, init).1 (g (readA (s0, init).1 kv.2));
        ((a.1, (s0, init).2 ++ [(kv.1, a.2)]) : Store × List (String × Nat)))
        = (s0 ++ [g (readA s0 kv.2)], init ++ [(kv.1, s0.length)]) := rfl
    rw [List.foldl_cons, hstep]
    obtain ⟨hpre, hmem⟩ :=
      ih (s0 ++ [g (readA s0 kv.2)]) (init ++ [(kv.1, s0.length)])
    refine ⟨(List.prefix_append s0 _).trans hpre, ?_⟩
    intro kv' h
    rcases hmem kv' h with h' | h'
    · rcases List.mem_append.mp h' with h'' | h''
      · exact Or.inl h''
      · right
        have : kv' = (kv.1, s0.length) := by simpa using h''
        rw [this]
    · right
      have hlen : (s0 ++ [g (readA s0 kv.2)]).length = s0.length + 1 := by simp
      omega

theorem allocMap_extends (g : NpArray → NpArray) (s : Store)
    (d : List (String × Nat)) : s <+: (allocMap g s d).1 :=
  (allocMap_fold_invariant g d s []).1

theorem allocMap_fresh (g : NpArray → NpArray) (s : Store)
    (d : List (String × Nat)) :
    ∀ kv ∈ (allocMap g s d).2, s.length ≤ kv.2 := by
  intro kv h
  rcases (allocMap_fold_invariant g d s []).2 kv h with h' | h'
  · simp at h'
  · exact h'

theorem canonBatchCheckAlloc_inv (s : Store) (features : List (String × Nat))
    (b : Bool) :
    (canonBatchCheckAlloc s features b).1 = s ∧
    ∀ out, (canonBatchCheckAlloc s features b).2 = .ok out → out = features := by
  rw [canonBatchCheckAlloc]
  split_ifs
  · exact ⟨rfl, fun out h => by simp at h⟩
  · refine ⟨rfl, fun out h => ?_⟩
    simp at h
    exact h.symm
  · refine ⟨rfl, fun out h => ?_⟩
    simp at h
    exact h.symm

theorem expand_then_batch_inv (g : NpArray → NpArray) (s : Store)
    (fs : List (String × Nat)) (b : Bool) :
    s <+: (canonBatchCheckAlloc (allocMap g s fs).1 (allocMap g s fs).2 b).1 ∧
    ∀ out, (canonBatchCheckAlloc (allocMap g s fs).1 (allocMap g s fs).2 b).2
        = .ok out →
      ∀ kv ∈ out, s.length ≤ kv.2 := by
  obtain ⟨hb1, hb2⟩ :=
    canonBatchCheckAlloc_inv (allocMap g s fs).1 (allocMap g s fs).2 b
  constructor
  · rw [hb1]
    exact allocMap_extends g s fs
  · intro out hout kv hkv
    rw [hb2 out hout] at hkv
    exact allocMap_fresh g s fs kv hkv

theorem canonSequenceStageAlloc_inv (times : NpArray) (s : Store)
    (features : List (String × Nat)) (b : Bool) :
    s <+: (canonSequenceStageAlloc times s features b).1 ∧
    ∀ out, (canonSequenceStageAlloc times s features b).2 = .ok out →
      ∀ kv ∈ out, kv ∈ features ∨ s.length ≤ kv.2 := by
  simp only [canonSequenceStageAlloc, alloc]
  split_ifs with h1 h2 h3 h4
  · obtain ⟨hp, hm⟩ := expand_then_batch_inv NpArray.expandFirst
      (s ++ [(readA s (getKV features TrainEvalFeatures.VALUES)).expandLast])
      (setKV features TrainEvalFeatures.VALUES s.length) b
    refine ⟨(List.prefix_append s _).trans hp, ?_⟩
    intro out hout kv hkv
    right
    have := hm out hout kv hkv
    have hlen : (s ++ [(readA s
        (getKV features TrainEvalFeatures.VALUES)).expandLast]).length
        = s.length + 1 := by simp
    omega
  · exact ⟨List.prefix_refl _, fun out hout => by simp at hout⟩
  · obtain ⟨hp, hm⟩ := expand_then_batch_inv NpArray.expandFirst s features b
    exact ⟨hp, fun out hout kv hkv => Or.inr (hm out hout kv hkv)⟩
  · exact ⟨List.prefix_refl _, fun out hout => by simp at hout⟩
  · obtain ⟨hb1, hb2⟩ := canonBatchCheckAlloc_inv s features b
    refine ⟨by rw [hb1], ?_⟩
    intro out hout kv hkv
    rw [hb2 out hout] at hkv
    exact Or.inl hkv

theorem canonScalarStageAlloc_inv (times : NpArray) (s : Store)
    (features : List (String × Nat)) (b : Bool) :
    s <+: (canonScalarStageAlloc times s features b).1 ∧
    ∀ out, (canonScalarStageAlloc times s features b).2 = .ok out →
      ∀ kv ∈ out, kv ∈ features ∨ s.length ≤ kv.2 := by
  simp only [canonScalarStageAlloc, alloc]
  split_ifs with h1 h2 h3
  · obtain ⟨hp, hm⟩ := canonSequenceStageAlloc_inv times
      (allocMap NpArray.expandFirstTwo
        (s ++ [(readA s (getKV features TrainEvalFeatures.VALUES)).expandLast])
        (setKV features TrainEvalFeatures.VALUES s.length)).1
      (allocMap NpArray.expandFirstTwo
        (s ++ [(readA s (getKV features TrainEvalFeatures.VALUES)).expandLast])
        (setKV features TrainEvalFeatures.VALUES s.length)).2 b
    have hpre0 : s <+: (allocMap NpArray.expandFirstTwo
        (s ++ [(readA s (getKV features TrainEvalFeatures.VALUES)).expandLast])
        (setKV features TrainEvalFeatures.VALUES s.length)).1 :=
      (List.prefix_append s _).trans (allocMap_extends _ _ _)
    refine ⟨hpre0.trans hp, ?_⟩
    intro out hout kv hkv
    right
    rcases hm out hout kv hkv with h' | h'
    · have := allocMap_fresh NpArray.expandFirstTwo
        (s ++ [(readA s (getKV features TrainEvalFeatures.VALUES)).expandLast])
        (setKV features TrainEvalFeatures.VALUES s.length) kv h'
      have hlen : (s ++ [(readA s
          (getKV features TrainEvalFeatures.VALUES)).expandLast]).length
          = s.length + 1 := by simp
      omega
    · have := List.IsPrefix.length_le hpre0
      omega
  · exact ⟨List.prefix_refl _, fun out hout => by simp at hout⟩
  · obtain ⟨hp, hm⟩ := canonSequenceStageAlloc_inv times
      (allocMap NpArray.expandFirstTwo s features).1
      (allocMap NpArray.expandFirstTwo s features).2 b
    refine ⟨(allocMap_extends _ _ _).trans hp, ?_⟩
    intro out hout kv hkv
    right
    rcases hm out hout kv hkv with h' | h'
    · exact allocMap_fresh NpArray.expandFirstTwo s features kv h'
    · have := List.IsPrefix.length_le (allocMap_extends NpArray.expandFirstTwo s features)
      omega
  · exact canonSequenceStageAlloc_inv times s features b

/-- C10: `_canonicalize_numpy_data` never mutates its argument. At the
aliasing level the store only grows — the caller's store is a prefix of the
final store, so every array the caller holds, in particular every value of
`data`, is unchanged, also on every `ValueError` path — and on success the
returned dict is a fresh dict of freshly allocated arrays: every reference
in it points past the caller's store. -/
theorem canonicalize_alloc_no_mutation (s : Store) (data : List (String × Nat))
    (b : Bool) :
    s <+: (_canonicalize_numpy_data_alloc s data b).1 ∧
    ∀ out, (_canonicalize_numpy_data_alloc s data b).2 = .ok out →
      ∀ kv ∈ out, s.length ≤ kv.2 := by
  simp only [_canonicalize_numpy_data_alloc]
  split_ifs with h1 h2
  · exact ⟨allocMap_extends id s data, fun out hout => by simp at hout⟩
  · exact ⟨allocMap_extends id s data, fun out hout => by simp at hout⟩
  · obtain ⟨hp, hm⟩ := canonScalarStageAlloc_inv
      (readA (allocMap id s data).1
        (getKV (allocMap id s data).2 TrainEvalFeatures.TIMES))
      (allocMap id s data).1 (allocMap id s data).2 b
    refine ⟨(allocMap_extends id s data).trans hp, ?_⟩
    intro out hout kv hkv
    rcases hm out hout kv hkv with h' | h'
    · exact allocMap_fresh id s data kv h'
    · exact le_trans (List.IsPrefix.length_le (allocMap_extends id s data)) h'

/-- Witness for C10 at a concrete input: the caller's one-array store stays
a prefix of the result store, and both returned references point past it. -/
theorem canonicalize_alloc_no_mutation_witness :
    [NpArray.mk [7] [1]]
      <+: (_canonicalize_numpy_data_alloc [NpArray.mk [7] [1]]
            [("times", 0), ("values", 0)] false).1 ∧
    ∀ kv ∈ [("times", 4), ("values", 5)],
      ([NpArray.mk [7] [1]] : Store).length ≤ kv.2 := by
  have h := canonicalize_alloc_no_mutation [NpArray.mk [7] [1]]
    [("times", 0), ("values", 0)] false
  exact ⟨h.1, h.2 [("times", 4), ("values", 5)] (by decide)⟩
